import Mathlib

/-!
Dispatch core of `hub` (`commands/runner.go`).

A shallow embedding of `commands/runner.go`: exit-code normalisation
(`newExecError`), the command registry (`Runner`), alias expansion
(`expandAlias`, `splitAliasCmd`), the subprocess queue (`printCommands`,
`executeCommands`) and the dispatcher (`Runner.Execute`, `Runner.Call`).

Go `error` values are `Option GoError` (`none` is `nil`).  Everything the
code does to the outside world appends an `Event` to a log, and every
answer of the outside world is a function of the log so far, so that an
answer may depend on all that happened before it.
-/

namespace Hub

/-! ## Data model -/

deriving instance DecidableEq for Except

/-- A `syscall.WaitStatus`, observed only through `ExitStatus()`. -/
structure WaitStatus where
  ExitStatus : Int
deriving DecidableEq, Repr

/-- The `interface{}` value returned by `(*exec.ExitError).Sys()`: a
`syscall.WaitStatus`, or a value of some other dynamic type. -/
inductive SysValue where
  | waitStatus (status : WaitStatus)
  | other
deriving DecidableEq, Repr

/-- A non-nil Go `error`, by the distinctions `runner.go` makes: a
`*exec.ExitError` (with what its `Sys()` returns), the sentinel
`flag.ErrHelp`, or any other error. -/
inductive GoError where
  | ExitError (sys : SysValue)
  | ErrHelp
  | other (msg : String)
deriving DecidableEq, Repr

/-- `type ExecError struct { Err error; ExitCode int }`. -/
structure ExecError where
  Err : Option GoError
  ExitCode : Int
deriving DecidableEq, Repr

/-- Modelled from the spec: `cmd.Cmd` of package `cmd`, which is not among
the sources; a ProcessRequest is an external program invocation, its argv
being the program and its arguments. -/
structure Cmd where
  Name : String
  Args : List String
deriving DecidableEq, Repr

/-- Modelled from the spec: `Args` of `commands/args.go`, which is not among
the sources; the ArgsModel has a command name, positional parameters, a
dry-run flag and a queue of resolved subprocess requests. -/
structure Args where
  Command : String
  Params : List String
  Noop : Bool
  queuedProcesses : List Cmd
deriving DecidableEq, Repr

/-- Modelled from the spec: `Args.Commands()` of `commands/args.go`, the queue
of subprocess requests of the invocation. -/
def Args.Commands (a : Args) : List Cmd :=
  a.queuedProcesses

/-- Modelled from the spec: `Args.PrependParams` of `commands/args.go`; the
given words are prepended to the existing parameter sequence. -/
def Args.PrependParams (a : Args) (params : List String) : Args :=
  { a with Params := params ++ a.Params }

/-- One interaction of the dispatcher with the outside world, with the
answer it got. -/
inductive Event where
  | printUsage
  | PromptForUpdate (err : Option GoError)
  | Alias (cmd : String) (value : String) (err : Option GoError)
  | Lookup (name : String)
  | Call (name : String) (args : Args) (err : Option GoError)
  | Println (c : Cmd)
  | Exec (c : Cmd) (err : Option GoError)
  | Spawn (command : String) (params : List String) (err : Option GoError)
deriving DecidableEq, Repr

/-- Modelled from the spec: `Command` of `commands/commands.go`, which is not
among the sources; a registry entry has a name, a runnable flag and a
handler invocable with the ArgsModel, returning the mutated ArgsModel and an
error.  The handler's answer may depend on the log so far. -/
structure Command where
  Name : String
  Runnable : Bool
  Call : List Event → Args → Args × Option GoError

/-- The collaborators of `runner.go` that are not among the sources:
`NewArgs`, `NewUpdater().PromptForUpdate`, `git.Alias`, `shellquote.Split`,
`(*cmd.Cmd).Exec` and `git.Spawn`. -/
structure World where
  NewArgs : List String → Args
  PromptForUpdate : List Event → Option GoError
  Alias : List Event → String → String × Option GoError
  Split : String → Except GoError (List String)
  Exec : List Event → Cmd → Option GoError
  Spawn : List Event → String → List String → Option GoError

/-- How a run of `Runner.Execute` ends: it returns an `ExecError`, the
process is terminated by `utils.Check`, or a run-time panic is raised. -/
inductive Run where
  | returned (result : ExecError)
  | exited (err : GoError)
  | panicked
deriving DecidableEq, Repr

/-! ## Exit-code normalisation -/

/-- `newExecError` (runner.go:26-38). -/
def newExecError (err : Option GoError) : ExecError :=
  let exitCode : Int :=
    match err with
    | none => 0
    | some (GoError.ExitError (SysValue.waitStatus status)) => status.ExitStatus
    | some _ => 1
  { Err := err, ExitCode := exitCode }

/-! ## Registry -/

/-- `type Runner struct { commands map[string]*Command }`; the map is a list
of bindings with at most one binding per key. -/
structure Runner where
  commands : List (String × Command)

/-- `NewRunner` (runner.go:44-46). -/
def NewRunner : Runner :=
  { commands := [] }

/-- `Runner.All` (runner.go:48-50). -/
def Runner.All (r : Runner) : List (String × Command) :=
  r.commands

/-- `Runner.Use` (runner.go:52-54): `r.commands[command.Name()] = command`. -/
def Runner.Use (r : Runner) (command : Command) : Runner :=
  { commands := (command.Name, command) ::
      r.commands.filter (fun entry => entry.1 != command.Name) }

/-- `Runner.Lookup` (runner.go:56-58): `nil` is `none`. -/
def Runner.Lookup (r : Runner) (name : String) : Option Command :=
  r.commands.lookup name

/-! ## Subprocess queue -/

/-- `printCommands` (runner.go:102-106). -/
def printCommands : List Cmd → List Event → List Event
  | [], log => log
  | c :: cmds, log => printCommands cmds (log ++ [Event.Println c])

/-- `executeCommands` (runner.go:108-117). -/
def executeCommands (w : World) : List Cmd → List Event → Option GoError × List Event
  | [], log => (none, log)
  | c :: cmds, log =>
    let err := w.Exec log c
    let log := log ++ [Event.Exec c err]
    match err with
    | some e => (some e, log)
    | none => executeCommands w cmds log

/-- `Runner.Call` (runner.go:83-100). -/
def Runner.Call (w : World) (_r : Runner) (cmd : Command) (args : Args)
    (log : List Event) : ExecError × List Event :=
  let (args1, err) := cmd.Call log args
  let log := log ++ [Event.Call cmd.Name args err]
  match err with
  | some e =>
    let err := if e = GoError.ErrHelp then none else some e
    (newExecError err, log)
  | none =>
    let cmds := args1.Commands
    if args1.Noop then
      (newExecError none, printCommands cmds log)
    else
      let (err, log) := executeCommands w cmds log
      (newExecError err, log)

/-! ## Alias expansion -/

/-- `strings.HasPrefix`. -/
def HasPrefix (s p : String) : Bool :=
  s.data.take p.data.length == p.data

/-- `splitAliasCmd` (runner.go:131-146). -/
def splitAliasCmd (w : World) (cmd : String) : Except GoError (List String) :=
  if cmd = "" then
    Except.error (GoError.other "alias can't be empty")
  else if HasPrefix cmd "!" then
    Except.error (GoError.other "alias starting with ! can't be split")
  else
    match w.Split cmd with
    | Except.error err => Except.error err
    | Except.ok words => Except.ok words

/-- `expandAlias` (runner.go:119-129); `none` is the run-time panic of
`words[0]` on an empty slice. -/
def expandAlias (w : World) (args : Args) (log : List Event) : Option Args × List Event :=
  let cmd := args.Command
  let (expandedCmd, err) := w.Alias log cmd
  let log := log ++ [Event.Alias cmd expandedCmd err]
  if err = none ∧ expandedCmd ≠ "" then
    match splitAliasCmd w expandedCmd with
    | Except.ok words =>
      match words with
      | [] => (none, log)
      | w0 :: rest => (some ({ args with Command := w0 }.PrependParams rest), log)
    | Except.error _ => (some args, log)
  else
    (some args, log)

/-! ## Shell word splitting -/

namespace shellquote

/-- The error for a single quote that is never closed. -/
def UnterminatedSingleQuoteError : GoError :=
  GoError.other "Unterminated single-quoted string"

/-- The error for a double quote that is never closed. -/
def UnterminatedDoubleQuoteError : GoError :=
  GoError.other "Unterminated double-quoted string"

/-- The error for a backslash at the end of the input. -/
def UnterminatedEscapeError : GoError :=
  GoError.other "Unterminated backslash-escape"

/-- The newline character. -/
def newline : Char := Char.ofNat 10

/-- The single quote. -/
def singleChar : Char := Char.ofNat 39

/-- The double quote. -/
def doubleChar : Char := Char.ofNat 34

/-- The backslash. -/
def escapeChar : Char := Char.ofNat 92

/-- The characters that separate words: blank, newline, tab. -/
def splitChars : List Char := [' ', newline, Char.ofNat 9]

/-- The characters a backslash escapes inside double quotes: dollar,
backquote, double quote, newline, backslash. -/
def doubleEscapeChars : List Char := ['$', Char.ofNat 96, doubleChar, newline, escapeChar]

/-- Where the splitter is: between two words, inside an unquoted stretch of
a word, inside single quotes, inside double quotes. -/
inductive Mode where
  | between
  | raw
  | single
  | double
deriving DecidableEq, Repr

/-- The splitter as one pass over the characters: `buf` is the word being
built, `words` the words completed so far. -/
def splitFrom : Mode → List Char → List Char → List String → Except GoError (List String)
  | Mode.between, [], _, words => Except.ok words
  | Mode.between, c :: cur, _, words =>
    if c ∈ splitChars then splitFrom Mode.between cur [] words
    else if c = escapeChar then
      match cur with
      | [] => Except.error UnterminatedEscapeError
      | c2 :: rest =>
        if c2 = newline then splitFrom Mode.between rest [] words
        else splitFrom Mode.raw rest [c2] words
    else if c = singleChar then splitFrom Mode.single cur [] words
    else if c = doubleChar then splitFrom Mode.double cur [] words
    else splitFrom Mode.raw cur [c] words
  | Mode.raw, [], buf, words => Except.ok (words ++ [String.mk buf])
  | Mode.raw, c :: cur, buf, words =>
    if c = singleChar then splitFrom Mode.single cur buf words
    else if c = doubleChar then splitFrom Mode.double cur buf words
    else if c = escapeChar then
      match cur with
      | [] => Except.error UnterminatedEscapeError
      | c2 :: rest =>
        if c2 = newline then splitFrom Mode.raw rest buf words
        else splitFrom Mode.raw rest (buf ++ [c2]) words
    else if c ∈ splitChars then splitFrom Mode.between cur [] (words ++ [String.mk buf])
    else splitFrom Mode.raw cur (buf ++ [c]) words
  | Mode.single, [], _, _ => Except.error UnterminatedSingleQuoteError
  | Mode.single, c :: cur, buf, words =>
    if c = singleChar then splitFrom Mode.raw cur buf words
    else splitFrom Mode.single cur (buf ++ [c]) words
  | Mode.double, [], _, _ => Except.error UnterminatedDoubleQuoteError
  | Mode.double, c :: cur, buf, words =>
    if c = doubleChar then splitFrom Mode.raw cur buf words
    else if c = escapeChar then
      match cur with
      | [] => Except.error UnterminatedDoubleQuoteError
      | c2 :: rest =>
        if c2 ∈ doubleEscapeChars then
          if c2 = newline then splitFrom Mode.double rest buf words
          else splitFrom Mode.double rest (buf ++ [c2]) words
        else splitFrom Mode.double rest (buf ++ [c, c2]) words
    else splitFrom Mode.double cur (buf ++ [c]) words

/-- Modelled from the spec: `shellquote.Split` of the imported package
`github.com/kballard/go-shellquote`, which is not among the sources; the value
is split into whitespace-separated words honouring single quotes, double
quotes and backslash escapes, and a malformed quoted string fails the
split. -/
def Split (input : String) : Except GoError (List String) :=
  splitFrom Mode.between input.data [] []

end shellquote

/-! ## Dispatcher -/

/-- Modelled from the spec: `utils.Check` of package `utils`, which is not
among the sources; any failure of the pre-dispatch check is fatal to the whole
run. -/
def utils.Check (err : Option GoError) : Except GoError Unit :=
  match err with
  | some e => Except.error e
  | none => Except.ok ()

/-- `Runner.Execute` (runner.go:60-81); `osArgs` is `os.Args[1:]`. -/
def Runner.Execute (w : World) (r : Runner) (osArgs : List String)
    (log : List Event) : Run × List Event :=
  let args := w.NewArgs osArgs
  if args.Command = "" then
    (Run.returned (newExecError none), log ++ [Event.printUsage])
  else
    let err := w.PromptForUpdate log
    let log := log ++ [Event.PromptForUpdate err]
    match utils.Check err with
    | Except.error e => (Run.exited e, log)
    | Except.ok () =>
      match expandAlias w args log with
      | (none, log) => (Run.panicked, log)
      | (some args, log) =>
        let cmd := r.Lookup args.Command
        let log := log ++ [Event.Lookup args.Command]
        let passthrough :=
          let err := w.Spawn log args.Command args.Params
          (Run.returned (newExecError err), log ++ [Event.Spawn args.Command args.Params err])
        match cmd with
        | some cmd =>
          if cmd.Runnable then
            let (result, log) := r.Call w cmd args log
            (Run.returned result, log)
          else
            passthrough
        | none => passthrough

/-! ## Concrete worlds for the examples -/

/-- An `*exec.ExitError` whose wait status carries exit status `n`. -/
def exitStatusError (n : Int) : GoError :=
  GoError.ExitError (SysValue.waitStatus { ExitStatus := n })

/-- What running a child to completion returns (`(*exec.Cmd).Run`): `nil`
when the child exits with code 0, an `*exec.ExitError` whose wait status
carries the code otherwise. -/
def childExit (n : Nat) : Option GoError :=
  if n = 0 then none else some (exitStatusError n)

/-- A parser for the examples: an optional leading `--noop`, then the
command, then its parameters; the queue starts empty. -/
def demoNewArgs : List String → Args
  | [] => { Command := "", Params := [], Noop := false, queuedProcesses := [] }
  | a :: rest =>
    if a = "--noop" then
      match rest with
      | [] => { Command := "", Params := [], Noop := true, queuedProcesses := [] }
      | c :: ps => { Command := c, Params := ps, Noop := true, queuedProcesses := [] }
    else { Command := a, Params := rest, Noop := false, queuedProcesses := [] }

/-- A world for the examples: the update check passes, `co` is an alias for
`checkout --quiet`, the request named `fail7` fails with exit status 7, and the
wrapped tool exits with 42 on the command `exit42` and with 0 otherwise. -/
def demoWorld : World where
  NewArgs := demoNewArgs
  PromptForUpdate := fun _ => none
  Alias := fun _ cmd =>
    if cmd = "co" then ("checkout --quiet", none) else ("", some (GoError.other "exit status 1"))
  Split := shellquote.Split
  Exec := fun _ c => if c.Name = "fail7" then some (exitStatusError 7) else none
  Spawn := fun _ command _ => if command = "exit42" then childExit 42 else childExit 0

/-- A handler for the examples: it queues three requests, the second of
which is `fail7`, and reports no error. -/
def demoHandler : Command where
  Name := "demo"
  Runnable := true
  Call := fun _ args =>
    ({ args with queuedProcesses :=
        [{ Name := "one", Args := [] }, { Name := "fail7", Args := [] },
         { Name := "three", Args := [] }] }, none)

/-- A handler for the examples that reports `flag.ErrHelp`. -/
def helpHandler : Command where
  Name := "help-me"
  Runnable := true
  Call := fun _ args =>
    ({ args with queuedProcesses := [{ Name := "one", Args := [] }] }, some GoError.ErrHelp)

/-- A handler for the examples that fails with an ordinary error after
queueing a request. -/
def failingHandler : Command where
  Name := "broken"
  Runnable := true
  Call := fun _ args =>
    ({ args with queuedProcesses := [{ Name := "one", Args := [] }] },
      some (GoError.other "boom"))

/-- A registry entry for the examples that is not runnable. -/
def docOnlyCommand : Command where
  Name := "checkout"
  Runnable := false
  Call := fun _ args => (args, none)

/-- The log at the moment `Runner.Execute` spawns the wrapped tool, for a run
started with log `log` whose update check passed and whose alias expansion
gave `args1`: the update check, the alias query and the registry lookup have
been added. -/
def logBeforeSpawn (w : World) (osArgs : List String) (log : List Event) (args1 : Args) :
    List Event :=
  let cmd := (w.NewArgs osArgs).Command
  let answer := w.Alias (log ++ [Event.PromptForUpdate none]) cmd
  log ++ [Event.PromptForUpdate none, Event.Alias cmd answer.1 answer.2,
    Event.Lookup args1.Command]

/-- A world for the examples in which every command has the alias value
`value`; the rest is as in `demoWorld`. -/
def aliasWorld (value : String) : World :=
  { demoWorld with Alias := fun _ _ => (value, none) }

/-- A world for the examples with a chain of aliases: `ci` is an alias for
`co -b`, and `co` is an alias for `checkout --quiet`. -/
def chainWorld : World :=
  { demoWorld with
    Alias := fun _ cmd =>
      if cmd = "ci" then ("co -b", none)
      else if cmd = "co" then ("checkout --quiet", none)
      else ("", some (GoError.other "exit status 1")) }

/-- Whether an event is a query of the alias source. -/
def isAliasQuery : Event → Bool
  | Event.Alias _ _ _ => true
  | _ => false

/-- Whether an event is the printing or the execution of a queued request. -/
def isQueueEvent : Event → Bool
  | Event.Println _ => true
  | Event.Exec _ _ => true
  | _ => false

/-! ## Helper lemmas -/

/-- The events of requests that ran and succeeded. -/
def ranOk (cmds : List Cmd) : List Event :=
  cmds.map (fun c => Event.Exec c none)

theorem printCommands_eq (cmds : List Cmd) (log : List Event) :
    printCommands cmds log = log ++ cmds.map Event.Println := by
  induction cmds generalizing log with
  | nil => simp [printCommands]
  | cons c cmds ih => simp [printCommands, ih]

theorem executeCommands_fail_at (w : World) (q : List Cmd) :
    ∀ (log : List Event) (i : Nat) (c : Cmd) (e : GoError),
      q[i]? = some c →
      (∀ j d, j < i → q[j]? = some d → w.Exec (log ++ ranOk (q.take j)) d = none) →
      w.Exec (log ++ ranOk (q.take i)) c = some e →
      executeCommands w q log
        = (some e, log ++ ranOk (q.take i) ++ [Event.Exec c (some e)]) := by
  induction q with
  | nil => intro log i c e hc; simp at hc
  | cons a t ih =>
    intro log i c e hc hpre hfail
    cases i with
    | zero =>
      simp at hc
      subst hc
      simp [ranOk] at hfail
      simp [executeCommands, hfail, ranOk]
    | succ k =>
      have h0 : w.Exec log a = none := by
        have := hpre 0 a (Nat.succ_pos k) (by simp)
        simpa [ranOk] using this
      simp only [List.getElem?_cons_succ] at hc
      have hpre1 : ∀ j d, j < k → t[j]? = some d →
          w.Exec ((log ++ [Event.Exec a none]) ++ ranOk (t.take j)) d = none := by
        intro j d hj hd
        have := hpre (j + 1) d (Nat.succ_lt_succ hj) (by simpa using hd)
        simpa [ranOk, List.append_assoc] using this
      have hfail1 : w.Exec ((log ++ [Event.Exec a none]) ++ ranOk (t.take k)) c = some e := by
        simpa [ranOk, List.append_assoc] using hfail
      have := ih (log ++ [Event.Exec a none]) k c e hc hpre1 hfail1
      simp [executeCommands, h0, this, ranOk, List.append_assoc]

theorem executeCommands_all_ok (w : World) (q : List Cmd) :
    ∀ (log : List Event),
      (∀ j d, q[j]? = some d → w.Exec (log ++ ranOk (q.take j)) d = none) →
      executeCommands w q log = (none, log ++ ranOk q) := by
  induction q with
  | nil => intro log _; simp [executeCommands, ranOk]
  | cons a t ih =>
    intro log hall
    have h0 : w.Exec log a = none := by
      have := hall 0 a (by simp)
      simpa [ranOk] using this
    have hall1 : ∀ j d, t[j]? = some d →
        w.Exec ((log ++ [Event.Exec a none]) ++ ranOk (t.take j)) d = none := by
      intro j d hd
      have := hall (j + 1) d (by simpa using hd)
      simpa [ranOk, List.append_assoc] using this
    have := ih (log ++ [Event.Exec a none]) hall1
    simp [executeCommands, h0, this, ranOk, List.append_assoc]

/-! ## Traces -/

theorem executeCommands_log (w : World) (q : List Cmd) :
    ∀ log : List Event, ∃ tail : List Event,
      (executeCommands w q log).2 = log ++ tail ∧ ∀ ev ∈ tail, isQueueEvent ev = true := by
  induction q with
  | nil => intro log; exact ⟨[], by simp [executeCommands], by simp⟩
  | cons a t ih =>
    intro log
    cases h : w.Exec log a with
    | some e =>
      refine ⟨[Event.Exec a (some e)], by simp [executeCommands, h], ?_⟩
      intro ev hev
      simp at hev
      subst hev
      rfl
    | none =>
      obtain ⟨tail, htail, hq⟩ := ih (log ++ [Event.Exec a none])
      refine ⟨Event.Exec a none :: tail, by simp [executeCommands, h, htail], ?_⟩
      intro ev hev
      rcases List.mem_cons.mp hev with h1 | h1
      · subst h1; rfl
      · exact hq ev h1

theorem Call_log (w : World) (r : Runner) (cmd : Command) (args : Args) (log : List Event) :
    ∃ tail : List Event,
      (r.Call w cmd args log).2
        = log ++ Event.Call cmd.Name args (cmd.Call log args).2 :: tail ∧
      ∀ ev ∈ tail, isQueueEvent ev = true := by
  rcases hcall : cmd.Call log args with ⟨args1, err⟩
  cases err with
  | some e =>
    refine ⟨[], ?_, by simp⟩
    simp only [Runner.Call, hcall]
  | none =>
    cases hnoop : args1.Noop with
    | true =>
      refine ⟨args1.Commands.map Event.Println, ?_, ?_⟩
      · simp only [Runner.Call, hcall, hnoop, printCommands_eq]
        simp
      · intro ev hev
        obtain ⟨c, _, hc⟩ := List.mem_map.mp hev
        subst hc
        rfl
    | false =>
      obtain ⟨tail, htail, hq⟩ :=
        executeCommands_log w args1.Commands (log ++ [Event.Call cmd.Name args none])
      refine ⟨tail, ?_, hq⟩
      simp only [Runner.Call, hcall, hnoop]
      simpa using htail

/-! ## Exit-code normalisation -/

/-- C1: for every error value `err`, `newExecError err` has `Err = err`; its
`ExitCode` is 0 when `err` is nil, the exit status of the wait status when
`err` is an exit error exposing a wait status, and 1 for every other non-nil
error. -/
theorem newExecError_spec (err : Option GoError) :
    (newExecError err).Err = err ∧
    (err = none → (newExecError err).ExitCode = 0) ∧
    (∀ status : WaitStatus,
      err = some (GoError.ExitError (SysValue.waitStatus status)) →
      (newExecError err).ExitCode = status.ExitStatus) ∧
    (err ≠ none →
      (∀ status : WaitStatus, err ≠ some (GoError.ExitError (SysValue.waitStatus status))) →
      (newExecError err).ExitCode = 1) := by
  refine ⟨rfl, ?_, ?_, ?_⟩
  · intro h; subst h; rfl
  · intro status h; subst h; rfl
  · intro hne hws
    match err, hne, hws with
    | some (GoError.ExitError (SysValue.waitStatus status)), _, hws => exact absurd rfl (hws status)
    | some (GoError.ExitError SysValue.other), _, _ => rfl
    | some GoError.ErrHelp, _, _ => rfl
    | some (GoError.other _), _, _ => rfl

theorem newExecError_spec_witness :
    (newExecError none).ExitCode = 0 ∧
    (newExecError (some (exitStatusError 42))).ExitCode = 42 ∧
    (newExecError (some (GoError.other "boom"))).ExitCode = 1 :=
  ⟨(newExecError_spec none).2.1 rfl,
   (newExecError_spec (some (exitStatusError 42))).2.2.1 { ExitStatus := 42 } rfl,
   (newExecError_spec (some (GoError.other "boom"))).2.2.2 (by decide) (by intro status h; cases h)⟩

/-! ## Subprocess queue -/

/-- C5: abort on first failure.  Let `q[i] = c` be the first request of the
queue `q` that fails, with error `e`: every earlier request returns nil when
its turn comes, and `c` returns `e`.  Then `executeCommands` executes
`q[0], ..., q[i]` once each in queue order and nothing after, and returns `e`;
and `Runner.Call`, for a handler that returned nil with `Noop` false and queue
`q`, returns the outcome `newExecError e` (whose exit code is the exit status
of `e` when `e` carries one) after the same executions. -/
theorem executeCommands_abort_on_first_failure (w : World) (q : List Cmd)
    (log : List Event) (i : Nat) (c : Cmd) (e : GoError)
    (hc : q[i]? = some c)
    (hbefore : ∀ j d, j < i → q[j]? = some d → w.Exec (log ++ ranOk (q.take j)) d = none)
    (hfail : w.Exec (log ++ ranOk (q.take i)) c = some e) :
    executeCommands w q log
      = (some e, log ++ ranOk (q.take i) ++ [Event.Exec c (some e)]) ∧
    (∀ (r : Runner) (cmd : Command) (args args1 : Args) (log0 : List Event),
      cmd.Call log0 args = (args1, none) → args1.Noop = false → args1.Commands = q →
      log = log0 ++ [Event.Call cmd.Name args none] →
      r.Call w cmd args log0
        = (newExecError (some e), log ++ ranOk (q.take i) ++ [Event.Exec c (some e)]) ∧
      (∀ status : WaitStatus, e = GoError.ExitError (SysValue.waitStatus status) →
        (r.Call w cmd args log0).1.ExitCode = status.ExitStatus)) := by
  have hrun := executeCommands_fail_at w q log i c e hc hbefore hfail
  refine ⟨hrun, ?_⟩
  intro r cmd args args1 log0 hcall hnoop hq hlog
  have hres : r.Call w cmd args log0
      = (newExecError (some e), log ++ ranOk (q.take i) ++ [Event.Exec c (some e)]) := by
    subst hlog
    simp only [Runner.Call, hcall, hnoop, hq, hrun]
    simp
  refine ⟨hres, ?_⟩
  intro status he
  rw [hres, he]
  rfl

theorem executeCommands_abort_on_first_failure_witness :
    executeCommands demoWorld
        [{ Name := "one", Args := [] }, { Name := "fail7", Args := [] },
         { Name := "three", Args := [] }] [Event.Call "demo" (demoNewArgs ["demo"]) none]
      = (some (exitStatusError 7),
          [Event.Call "demo" (demoNewArgs ["demo"]) none,
           Event.Exec { Name := "one", Args := [] } none,
           Event.Exec { Name := "fail7", Args := [] } (some (exitStatusError 7))]) ∧
    (Runner.Call demoWorld NewRunner demoHandler (demoNewArgs ["demo"]) []).1.ExitCode = 7 := by
  have h := executeCommands_abort_on_first_failure demoWorld
    [{ Name := "one", Args := [] }, { Name := "fail7", Args := [] },
     { Name := "three", Args := [] }]
    [Event.Call "demo" (demoNewArgs ["demo"]) none] 1 { Name := "fail7", Args := [] }
    (exitStatusError 7) (by decide)
    (by
      intro j d hj hd
      have hj0 : j = 0 := by omega
      subst hj0
      simp at hd
      subst hd
      decide)
    (by decide)
  refine ⟨by simpa [ranOk] using h.1, ?_⟩
  exact (h.2 NewRunner demoHandler (demoNewArgs ["demo"])
    { demoNewArgs ["demo"] with queuedProcesses :=
        [{ Name := "one", Args := [] }, { Name := "fail7", Args := [] },
         { Name := "three", Args := [] }] } [] rfl rfl rfl rfl).2 { ExitStatus := 7 } rfl

/-- C10: a queue `q` in which no request fails (each returns nil when its
turn comes) is executed whole, every request once and in queue order, and
`executeCommands` returns nil; on the empty queue it executes nothing and
returns nil. -/
theorem executeCommands_runs_all_in_order (w : World) (q : List Cmd) (log : List Event)
    (hall : ∀ j d, q[j]? = some d → w.Exec (log ++ ranOk (q.take j)) d = none) :
    executeCommands w q log = (none, log ++ q.map (fun c => Event.Exec c none)) ∧
    executeCommands w [] log = (none, log) :=
  ⟨executeCommands_all_ok w q log hall, rfl⟩

theorem executeCommands_runs_all_in_order_witness :
    executeCommands demoWorld [{ Name := "one", Args := [] }, { Name := "three", Args := [] }] []
      = (none, [Event.Exec { Name := "one", Args := [] } none,
                Event.Exec { Name := "three", Args := [] } none]) ∧
    executeCommands demoWorld [] [] = (none, []) := by
  have h := executeCommands_runs_all_in_order demoWorld
    [{ Name := "one", Args := [] }, { Name := "three", Args := [] }] []
    (by
      intro j d hd
      match j, hd with
      | 0, hd => simp at hd; subst hd; decide
      | 1, hd => simp at hd; subst hd; decide
      | (k + 2), hd => simp at hd)
  simpa using h

/-! ## Handler invocation -/

/-- C6: dry-run never executes and never fails.  When the handler returns
nil and `Noop` is true, `Runner.Call` prints one representation per request
of the queue, in queue order, executes no request, and returns an outcome with
nil `Err` and `ExitCode` 0, whatever executing the requests would have
returned. -/
theorem Call_noop_prints_only (w : World) (r : Runner) (cmd : Command)
    (args args1 : Args) (log : List Event)
    (hcall : cmd.Call log args = (args1, none)) (hnoop : args1.Noop = true) :
    r.Call w cmd args log
      = ({ Err := none, ExitCode := 0 },
         log ++ [Event.Call cmd.Name args none] ++ args1.Commands.map Event.Println) := by
  simp only [Runner.Call, hcall, hnoop, printCommands_eq]
  rfl

theorem Call_noop_prints_only_witness :
    Runner.Call demoWorld NewRunner demoHandler (demoNewArgs ["--noop", "demo"]) []
      = ({ Err := none, ExitCode := 0 },
         [Event.Call "demo" (demoNewArgs ["--noop", "demo"]) none,
          Event.Println { Name := "one", Args := [] },
          Event.Println { Name := "fail7", Args := [] },
          Event.Println { Name := "three", Args := [] }]) :=
  Call_noop_prints_only demoWorld NewRunner demoHandler (demoNewArgs ["--noop", "demo"])
    { demoNewArgs ["--noop", "demo"] with queuedProcesses :=
        [{ Name := "one", Args := [] }, { Name := "fail7", Args := [] },
         { Name := "three", Args := [] }] } [] rfl rfl

/-- C8: help requested is success.  When the handler returns `flag.ErrHelp`,
`Runner.Call` returns an outcome with nil `Err` and `ExitCode` 0, and neither
prints nor executes any queued request: the handler call is the only
event. -/
theorem Call_help_is_success (w : World) (r : Runner) (cmd : Command)
    (args args1 : Args) (log : List Event)
    (hcall : cmd.Call log args = (args1, some GoError.ErrHelp)) :
    r.Call w cmd args log
      = ({ Err := none, ExitCode := 0 },
         log ++ [Event.Call cmd.Name args (some GoError.ErrHelp)]) := by
  simp only [Runner.Call, hcall]
  rfl

theorem Call_help_is_success_witness :
    Runner.Call demoWorld NewRunner helpHandler (demoNewArgs ["help-me"]) []
      = ({ Err := none, ExitCode := 0 },
         [Event.Call "help-me" (demoNewArgs ["help-me"]) (some GoError.ErrHelp)]) :=
  Call_help_is_success demoWorld NewRunner helpHandler (demoNewArgs ["help-me"])
    { demoNewArgs ["help-me"] with queuedProcesses := [{ Name := "one", Args := [] }] } [] rfl

/-- C9: handler failure aborts the invocation.  When the handler returns an
error `e` other than `flag.ErrHelp`, `Runner.Call` returns `newExecError e`,
whose `Err` is `e` and whose `ExitCode` is 1 when `e` carries no wait status,
and neither prints nor executes any request of the queue, whatever the queue
and the `Noop` flag are: the handler call is the only event. -/
theorem Call_handler_failure_aborts (w : World) (r : Runner) (cmd : Command)
    (args args1 : Args) (log : List Event) (e : GoError)
    (hcall : cmd.Call log args = (args1, some e)) (hne : e ≠ GoError.ErrHelp) :
    r.Call w cmd args log
      = (newExecError (some e), log ++ [Event.Call cmd.Name args (some e)]) ∧
    (r.Call w cmd args log).1.Err = some e ∧
    ((∀ status : WaitStatus, e ≠ GoError.ExitError (SysValue.waitStatus status)) →
      (r.Call w cmd args log).1.ExitCode = 1) := by
  have hres : r.Call w cmd args log
      = (newExecError (some e), log ++ [Event.Call cmd.Name args (some e)]) := by
    simp only [Runner.Call, hcall, if_neg hne]
  refine ⟨hres, by rw [hres]; rfl, ?_⟩
  intro hws
  rw [hres]
  match e, hne, hws with
  | GoError.ExitError (SysValue.waitStatus status), _, hws => exact absurd rfl (hws status)
  | GoError.ExitError SysValue.other, _, _ => rfl
  | GoError.ErrHelp, hne, _ => exact absurd rfl hne
  | GoError.other _, _, _ => rfl

theorem Call_handler_failure_aborts_witness :
    Runner.Call demoWorld NewRunner failingHandler (demoNewArgs ["--noop", "broken"]) []
      = ({ Err := some (GoError.other "boom"), ExitCode := 1 },
         [Event.Call "broken" (demoNewArgs ["--noop", "broken"]) (some (GoError.other "boom"))]) :=
  (Call_handler_failure_aborts demoWorld NewRunner failingHandler
    (demoNewArgs ["--noop", "broken"])
    { demoNewArgs ["--noop", "broken"] with queuedProcesses := [{ Name := "one", Args := [] }] }
    [] (GoError.other "boom") rfl (by decide)).1

/-! ## Dispatcher -/

theorem expandAlias_log (w : World) (args : Args) (log : List Event) :
    (expandAlias w args log).2
      = log ++ [Event.Alias args.Command (w.Alias log args.Command).1
          (w.Alias log args.Command).2] := by
  unfold expandAlias
  simp only
  split
  · split
    · split <;> rfl
    · rfl
  · rfl

theorem Execute_passthrough_eq (w : World) (r : Runner) (osArgs : List String)
    (log : List Event) (args1 : Args)
    (hcmd : (w.NewArgs osArgs).Command ≠ "")
    (hupdate : w.PromptForUpdate log = none)
    (hexpand : (expandAlias w (w.NewArgs osArgs) (log ++ [Event.PromptForUpdate none])).1
      = some args1)
    (hentry : r.Lookup args1.Command = none ∨
      ∃ cmd, r.Lookup args1.Command = some cmd ∧ cmd.Runnable = false) :
    r.Execute w osArgs log
      = (Run.returned (newExecError
            (w.Spawn (logBeforeSpawn w osArgs log args1) args1.Command args1.Params)),
          logBeforeSpawn w osArgs log args1 ++
            [Event.Spawn args1.Command args1.Params
              (w.Spawn (logBeforeSpawn w osArgs log args1) args1.Command args1.Params)]) := by
  have hlog := expandAlias_log w (w.NewArgs osArgs) (log ++ [Event.PromptForUpdate none])
  rcases hE : expandAlias w (w.NewArgs osArgs) (log ++ [Event.PromptForUpdate none])
    with ⟨oa, log1⟩
  rw [hE] at hexpand hlog
  simp only at hexpand hlog
  subst hexpand
  have hl : log1 ++ [Event.Lookup args1.Command] = logBeforeSpawn w osArgs log args1 := by
    rw [hlog]; simp [logBeforeSpawn]
  unfold Runner.Execute
  simp only [if_neg hcmd, hupdate, utils.Check, hE]
  rcases hentry with hnone | ⟨cmd, hsome, hrun⟩
  · simp only [hnone, hl]
  · simp only [hsome, hrun, hl]
    simp

/-- C2: exit-code fidelity of passthrough.  For a run with a non-empty
command that reaches dispatch (the update check returned nil and alias
expansion gave `args1`) and finds no runnable registry entry for the expanded
command: if the spawned wrapped-tool child exits with code `N`, then
`Runner.Execute` returns an outcome with `ExitCode` `N`. -/
theorem Execute_passthrough_exit_code (w : World) (r : Runner) (osArgs : List String)
    (log : List Event) (args1 : Args) (N : Nat)
    (hcmd : (w.NewArgs osArgs).Command ≠ "")
    (hupdate : w.PromptForUpdate log = none)
    (hexpand : (expandAlias w (w.NewArgs osArgs) (log ++ [Event.PromptForUpdate none])).1
      = some args1)
    (hentry : r.Lookup args1.Command = none ∨
      ∃ cmd, r.Lookup args1.Command = some cmd ∧ cmd.Runnable = false)
    (hchild : w.Spawn (logBeforeSpawn w osArgs log args1) args1.Command args1.Params
      = childExit N) :
    ∃ result : ExecError,
      (r.Execute w osArgs log).1 = Run.returned result ∧ result.ExitCode = (N : Int) := by
  rw [Execute_passthrough_eq w r osArgs log args1 hcmd hupdate hexpand hentry, hchild]
  refine ⟨newExecError (childExit N), rfl, ?_⟩
  by_cases hN : N = 0
  · subst hN; rfl
  · simp [childExit, hN, exitStatusError, newExecError]

theorem Execute_passthrough_exit_code_witness :
    (∃ result : ExecError,
      (Runner.Execute demoWorld NewRunner ["exit42", "x"] []).1 = Run.returned result ∧
      result.ExitCode = ((42 : Nat) : Int)) ∧
    (∃ result : ExecError,
      (Runner.Execute demoWorld NewRunner ["status"] []).1 = Run.returned result ∧
      result.ExitCode = ((0 : Nat) : Int)) :=
  ⟨Execute_passthrough_exit_code demoWorld NewRunner ["exit42", "x"] []
      (demoNewArgs ["exit42", "x"]) 42 (by decide) rfl (by decide) (Or.inl rfl) (by decide),
   Execute_passthrough_exit_code demoWorld NewRunner ["status"] []
      (demoNewArgs ["status"]) 0 (by decide) rfl (by decide) (Or.inl rfl) (by decide)⟩

/-- C3: passthrough dispatch.  For a run with a non-empty command that
reaches dispatch (the update check returned nil and alias expansion gave
`args1`): if the registry has no entry for the expanded command, or an entry
that is not runnable, then `Runner.Execute` calls no handler, prints and
executes no queued request, and spawns the wrapped tool exactly once, with the
expanded command and the whole expanded parameter list; the events of the run
are the update check, the alias query, the registry lookup and that one spawn,
and the outcome is the normalised result of the spawn.  Nothing is assumed of
the `Noop` flag. -/
theorem Execute_passthrough_dispatch (w : World) (r : Runner) (osArgs : List String)
    (log : List Event) (args1 : Args)
    (hcmd : (w.NewArgs osArgs).Command ≠ "")
    (hupdate : w.PromptForUpdate log = none)
    (hexpand : (expandAlias w (w.NewArgs osArgs) (log ++ [Event.PromptForUpdate none])).1
      = some args1)
    (hentry : r.Lookup args1.Command = none ∨
      ∃ cmd, r.Lookup args1.Command = some cmd ∧ cmd.Runnable = false) :
    ∃ err : Option GoError,
      err = w.Spawn (logBeforeSpawn w osArgs log args1) args1.Command args1.Params ∧
      r.Execute w osArgs log
        = (Run.returned (newExecError err),
           log ++ [Event.PromptForUpdate none,
             Event.Alias (w.NewArgs osArgs).Command
               (w.Alias (log ++ [Event.PromptForUpdate none]) (w.NewArgs osArgs).Command).1
               (w.Alias (log ++ [Event.PromptForUpdate none]) (w.NewArgs osArgs).Command).2,
             Event.Lookup args1.Command,
             Event.Spawn args1.Command args1.Params err]) := by
  refine ⟨_, rfl, ?_⟩
  rw [Execute_passthrough_eq w r osArgs log args1 hcmd hupdate hexpand hentry]
  simp [logBeforeSpawn]

theorem Execute_passthrough_dispatch_witness :
    Runner.Execute demoWorld (NewRunner.Use docOnlyCommand) ["--noop", "co", "foo"] []
      = (Run.returned { Err := none, ExitCode := 0 },
         [Event.PromptForUpdate none,
          Event.Alias "co" "checkout --quiet" none,
          Event.Lookup "checkout",
          Event.Spawn "checkout" ["--quiet", "foo"] none]) := by
  obtain ⟨err, herr, h⟩ := Execute_passthrough_dispatch demoWorld (NewRunner.Use docOnlyCommand)
    ["--noop", "co", "foo"] []
    { Command := "checkout", Params := ["--quiet", "foo"], Noop := true, queuedProcesses := [] }
    (by decide) rfl (by decide) (Or.inr ⟨docOnlyCommand, rfl, rfl⟩)
  have h0 : err = none := herr.trans (by decide)
  subst h0
  exact h

/-- C7: empty command is a terminal success.  When the raw invocation
parses to an empty command, `Runner.Execute` prints the usage text once and
returns an outcome with nil `Err` and `ExitCode` 0; printing the usage is the
only event of the run, so there is no update check, no alias query, no
registry lookup, no handler call and no subprocess. -/
theorem Execute_empty_command (w : World) (r : Runner) (osArgs : List String)
    (log : List Event) (hcmd : (w.NewArgs osArgs).Command = "") :
    r.Execute w osArgs log
      = (Run.returned { Err := none, ExitCode := 0 }, log ++ [Event.printUsage]) := by
  unfold Runner.Execute
  simp only [hcmd, if_true]
  rfl

theorem Execute_empty_command_witness :
    Runner.Execute demoWorld (NewRunner.Use demoHandler) [] []
      = (Run.returned { Err := none, ExitCode := 0 }, [Event.printUsage]) :=
  Execute_empty_command demoWorld (NewRunner.Use demoHandler) [] [] rfl

/-! ## Alias expansion -/

/-- C4: alias expansion prepends.  When the alias source returns for the
command, without error, a non-empty value `v` that does not begin with `!` and
that splits without error into the words `w0, w1, ..., wk`, `expandAlias` sets
`Command` to `w0` and `Params` to `w1, ..., wk` followed by the original
parameters in their order, and leaves the rest of the arguments as they
were. -/
theorem expandAlias_prepends (w : World) (args : Args) (log : List Event)
    (v w0 : String) (ws : List String)
    (halias : w.Alias log args.Command = (v, none))
    (hne : v ≠ "") (hbang : HasPrefix v "!" = false)
    (hsplit : w.Split v = Except.ok (w0 :: ws)) :
    expandAlias w args log
      = (some { args with Command := w0, Params := ws ++ args.Params },
         log ++ [Event.Alias args.Command v none]) := by
  simp [expandAlias, halias, hne, splitAliasCmd, hbang, hsplit, Args.PrependParams]

theorem expandAlias_prepends_witness :
    expandAlias demoWorld
        { Command := "co", Params := ["foo"], Noop := false, queuedProcesses := [] } []
      = (some { Command := "checkout", Params := ["--quiet", "foo"], Noop := false,
                queuedProcesses := [] },
         [Event.Alias "co" "checkout --quiet" none]) :=
  expandAlias_prepends demoWorld
    { Command := "co", Params := ["foo"], Noop := false, queuedProcesses := [] } []
    "checkout --quiet" "checkout" ["--quiet"] rfl (by decide) (by decide) (by decide)

/-- C11: shell-marker aliases are not expanded.  For every alias value `v`
that begins with `!`, `splitAliasCmd` returns its own error whatever the word
splitter would do with `v` (the value is not word-split), and `expandAlias`
leaves `Command` and `Params`, and the rest of the arguments, exactly as they
were. -/
theorem expandAlias_shell_marker (w : World) (v : String) (hbang : HasPrefix v "!" = true) :
    splitAliasCmd w v = Except.error (GoError.other "alias starting with ! can't be split") ∧
    ∀ (args : Args) (log : List Event) (err : Option GoError),
      w.Alias log args.Command = (v, err) →
      expandAlias w args log = (some args, log ++ [Event.Alias args.Command v err]) := by
  have hne : v ≠ "" := by
    intro h
    subst h
    simp [HasPrefix] at hbang
  have hsplit : splitAliasCmd w v
      = Except.error (GoError.other "alias starting with ! can't be split") := by
    simp [splitAliasCmd, hne, hbang]
  refine ⟨hsplit, ?_⟩
  intro args log err halias
  cases err <;> simp [expandAlias, halias, hsplit, hne]

theorem expandAlias_shell_marker_witness :
    splitAliasCmd (aliasWorld "!something") "!something"
      = Except.error (GoError.other "alias starting with ! can't be split") ∧
    expandAlias (aliasWorld "!something")
        { Command := "co", Params := ["foo"], Noop := false, queuedProcesses := [] } []
      = (some { Command := "co", Params := ["foo"], Noop := false, queuedProcesses := [] },
         [Event.Alias "co" "!something" none]) :=
  ⟨(expandAlias_shell_marker (aliasWorld "!something") "!something" (by decide)).1,
   (expandAlias_shell_marker (aliasWorld "!something") "!something" (by decide)).2
     { Command := "co", Params := ["foo"], Noop := false, queuedProcesses := [] } [] none rfl⟩

/-- C12: empty alias fails silently.  `splitAliasCmd ""` returns the
empty-alias error; and when the alias value is the empty string, `expandAlias`
leaves `Command` and `Params`, and the rest of the arguments, unchanged and
ends normally, no error being surfaced. -/
theorem expandAlias_empty_alias (w : World) (args : Args) (log : List Event)
    (err : Option GoError) (halias : w.Alias log args.Command = ("", err)) :
    splitAliasCmd w "" = Except.error (GoError.other "alias can't be empty") ∧
    expandAlias w args log = (some args, log ++ [Event.Alias args.Command "" err]) := by
  refine ⟨by simp [splitAliasCmd], ?_⟩
  simp [expandAlias, halias]

theorem expandAlias_empty_alias_witness :
    splitAliasCmd (aliasWorld "") "" = Except.error (GoError.other "alias can't be empty") ∧
    expandAlias (aliasWorld "")
        { Command := "co", Params := ["foo"], Noop := false, queuedProcesses := [] } []
      = (some { Command := "co", Params := ["foo"], Noop := false, queuedProcesses := [] },
         [Event.Alias "co" "" none]) :=
  expandAlias_empty_alias (aliasWorld "")
    { Command := "co", Params := ["foo"], Noop := false, queuedProcesses := [] } [] none rfl

/-- C13: malformed alias fails silently.  For every alias value `v` that is
word-split (it passes the two guards of `splitAliasCmd`, being non-empty and
not beginning with `!`) and on which word-splitting fails with error `e`,
`splitAliasCmd` returns `e`; and whenever word-splitting `v` fails,
`expandAlias` swallows the error, leaving `Command` and `Params`, and the rest
of the arguments, unchanged. -/
theorem expandAlias_malformed_alias (w : World) (v : String) (e : GoError)
    (hsplit : w.Split v = Except.error e) :
    (v ≠ "" → HasPrefix v "!" = false → splitAliasCmd w v = Except.error e) ∧
    ∀ (args : Args) (log : List Event) (err : Option GoError),
      w.Alias log args.Command = (v, err) →
      expandAlias w args log = (some args, log ++ [Event.Alias args.Command v err]) := by
  have hfail : ∃ e1, splitAliasCmd w v = Except.error e1 := by
    unfold splitAliasCmd
    split
    · exact ⟨_, rfl⟩
    · split
      · exact ⟨_, rfl⟩
      · exact ⟨e, by rw [hsplit]⟩
  refine ⟨?_, ?_⟩
  · intro hne hbang
    simp [splitAliasCmd, hne, hbang, hsplit]
  · intro args log err halias
    obtain ⟨e1, he1⟩ := hfail
    cases err <;> simp [expandAlias, halias, he1]

theorem expandAlias_malformed_alias_witness :
    splitAliasCmd (aliasWorld "log 'x") "log 'x"
      = Except.error shellquote.UnterminatedSingleQuoteError ∧
    splitAliasCmd demoWorld "log \"x" = Except.error shellquote.UnterminatedDoubleQuoteError ∧
    splitAliasCmd demoWorld "log x\\" = Except.error shellquote.UnterminatedEscapeError ∧
    expandAlias (aliasWorld "log 'x")
        { Command := "co", Params := ["foo"], Noop := false, queuedProcesses := [] } []
      = (some { Command := "co", Params := ["foo"], Noop := false, queuedProcesses := [] },
         [Event.Alias "co" "log 'x" none]) :=
  ⟨(expandAlias_malformed_alias (aliasWorld "log 'x") "log 'x"
      shellquote.UnterminatedSingleQuoteError (by decide)).1 (by decide) (by decide),
   (expandAlias_malformed_alias demoWorld "log \"x"
      shellquote.UnterminatedDoubleQuoteError (by decide)).1 (by decide) (by decide),
   (expandAlias_malformed_alias demoWorld "log x\\"
      shellquote.UnterminatedEscapeError (by decide)).1 (by decide) (by decide),
   (expandAlias_malformed_alias (aliasWorld "log 'x") "log 'x"
      shellquote.UnterminatedSingleQuoteError (by decide)).2
     { Command := "co", Params := ["foo"], Noop := false, queuedProcesses := [] } [] none rfl⟩

/-- C14: no-alias expansion is the identity and is idempotent.  When the
command has no alias defined or the alias lookup fails (the alias source
answers with an error or with an empty value, whenever it is asked),
`expandAlias` leaves the arguments unchanged, and applying it a second time
yields the same arguments again. -/
theorem expandAlias_no_alias (w : World) (args : Args) (log : List Event)
    (hnone : ∀ l : List Event,
      (w.Alias l args.Command).2 ≠ none ∨ (w.Alias l args.Command).1 = "") :
    (expandAlias w args log).1 = some args ∧
    ∀ args1 : Args, (expandAlias w args log).1 = some args1 →
      (expandAlias w args1 (expandAlias w args log).2).1 = some args1 := by
  have hid : ∀ l : List Event, (expandAlias w args l).1 = some args := by
    intro l
    unfold expandAlias
    rcases hnone l with h | h
    · simp [h]
    · simp [h]
  refine ⟨hid log, ?_⟩
  intro args1 h1
  rw [hid log] at h1
  cases h1
  exact hid _

theorem expandAlias_no_alias_witness :
    (expandAlias demoWorld
        { Command := "status", Params := ["-s"], Noop := false, queuedProcesses := [] } []).1
      = some { Command := "status", Params := ["-s"], Noop := false, queuedProcesses := [] } ∧
    (expandAlias demoWorld
        { Command := "status", Params := ["-s"], Noop := false, queuedProcesses := [] }
        (expandAlias demoWorld
          { Command := "status", Params := ["-s"], Noop := false, queuedProcesses := [] } []).2).1
      = some { Command := "status", Params := ["-s"], Noop := false, queuedProcesses := [] } :=
  have h := expandAlias_no_alias demoWorld
    { Command := "status", Params := ["-s"], Noop := false, queuedProcesses := [] } []
    (fun _ => Or.inl (by simp [demoWorld]))
  ⟨h.1, h.2 _ h.1⟩

/-! ## Registry -/

theorem lookup_filter_ne (n m : String) (hm : m ≠ n) (l : List (String × Command)) :
    (l.filter (fun entry => entry.1 != n)).lookup m = l.lookup m := by
  induction l with
  | nil => rfl
  | cons entry t ih =>
    obtain ⟨k, c⟩ := entry
    by_cases hk : k = n
    · subst hk
      have hmk : (m == k) = false := by simpa using hm
      simp [List.filter, List.lookup, hmk, ih]
    · have hkn : (k != n) = true := by simpa using hk
      by_cases hmk : m = k
      · subst hmk
        simp [List.filter, hkn, List.lookup]
      · have hmk1 : (m == k) = false := by simpa using hmk
        simp [List.filter, hkn, List.lookup, hmk1, ih]

/-- C16: registry last-registration-wins.  For two commands `c1` and `c2`
with the same name `n`, after `Use c1` the lookup of `n` gives `c1`, and after
`Use c1` then `Use c2` it gives `c2`, while `All` holds a single entry for `n`,
that of `c2`; `Use` always yields a registry, raising no error.  And for every
command `c`, the lookup of its name right after `Use c` gives `c`. -/
theorem Use_last_registration_wins (r : Runner) (c1 c2 c : Command) (n : String)
    (hn1 : c1.Name = n) (hn2 : c2.Name = n) :
    (r.Use c1).Lookup n = some c1 ∧
    ((r.Use c1).Use c2).Lookup n = some c2 ∧
    ((r.Use c1).Use c2).All.filter (fun entry => entry.1 == n) = [(n, c2)] ∧
    (r.Use c).Lookup c.Name = some c := by
  subst hn1
  refine ⟨?_, ?_, ?_, ?_⟩
  · simp [Runner.Use, Runner.Lookup, List.lookup]
  · simp [Runner.Use, Runner.Lookup, List.lookup, hn2]
  · simp only [Runner.Use, Runner.All, hn2]
    rw [List.filter_cons_of_pos (by simp)]
    congr 1
    rw [List.filter_eq_nil_iff]
    intro entry hentry
    have := (List.mem_filter.mp hentry).2
    simpa using this
  · simp [Runner.Use, Runner.Lookup, List.lookup]

theorem Use_last_registration_wins_witness :
    ((NewRunner.Use docOnlyCommand).Use
        { Name := "checkout", Runnable := true, Call := fun _ args => (args, none) }).Lookup
        "checkout"
      = some { Name := "checkout", Runnable := true, Call := fun _ args => (args, none) } ∧
    (((NewRunner.Use docOnlyCommand).Use
        { Name := "checkout", Runnable := true, Call := fun _ args => (args, none) }).All.filter
        (fun entry => entry.1 == "checkout")).length = 1 := by
  have h := Use_last_registration_wins NewRunner docOnlyCommand
    { Name := "checkout", Runnable := true, Call := fun _ args => (args, none) }
    demoHandler "checkout" rfl rfl
  exact ⟨h.2.1, by rw [h.2.2.1]; rfl⟩

/-- C20: registry frame.  For every registry, command `c` and name `m`
other than the name of `c`, the lookup of `m` gives the same result after
`Use c` as before it; and the lookup of any name in a fresh `NewRunner` gives
nil.  `Lookup` is a read of the map: it yields the entry and nothing else, so
the registry is the same after it as before. -/
theorem Use_frame (r : Runner) (c : Command) (m name : String) (hm : m ≠ c.Name) :
    (r.Use c).Lookup m = r.Lookup m ∧ NewRunner.Lookup name = none := by
  refine ⟨?_, rfl⟩
  have hmc : (m == c.Name) = false := by simpa using hm
  simp only [Runner.Use, Runner.Lookup, List.lookup, hmc]
  exact lookup_filter_ne c.Name m hm r.commands

theorem Use_frame_witness :
    ((NewRunner.Use docOnlyCommand).Use demoHandler).Lookup "checkout"
      = (NewRunner.Use docOnlyCommand).Lookup "checkout" ∧
    NewRunner.Lookup "checkout" = none :=
  Use_frame (NewRunner.Use docOnlyCommand) demoHandler "checkout" "checkout" (by decide)

/-! ## Outcome invariant -/

/-- C17, as stated, fails: for an exit error whose wait status has exit
status 0, `newExecError` returns a non-nil `Err` with `ExitCode` 0. -/
theorem newExecError_invariant_counterexample :
    ¬ ((newExecError (some (exitStatusError 0))).Err = none ↔
        (newExecError (some (exitStatusError 0))).ExitCode = 0) := by
  decide

/-- C17, amended: for every error value `err` other than an exit error
whose wait status has exit status 0, the outcome of `newExecError err` has
`Err` nil if and only if its `ExitCode` is 0. -/
theorem newExecError_invariant (err : Option GoError)
    (hstatus : ∀ status : WaitStatus,
      err = some (GoError.ExitError (SysValue.waitStatus status)) → status.ExitStatus ≠ 0) :
    (newExecError err).Err = none ↔ (newExecError err).ExitCode = 0 := by
  match err, hstatus with
  | none, _ => exact ⟨fun _ => rfl, fun _ => rfl⟩
  | some (GoError.ExitError (SysValue.waitStatus status)), hstatus =>
    have h := hstatus status rfl
    constructor
    · intro h1; cases h1
    · intro h1; exact absurd h1 h
  | some (GoError.ExitError SysValue.other), _ =>
    constructor
    · intro h1; cases h1
    · intro h1; exact absurd h1 (by decide)
  | some GoError.ErrHelp, _ =>
    constructor
    · intro h1; cases h1
    · intro h1; exact absurd h1 (by decide)
  | some (GoError.other msg), _ =>
    constructor
    · intro h1; cases h1
    · intro h1
      have h2 : (1 : Int) = 0 := h1
      exact absurd h2 (by decide)

theorem newExecError_invariant_witness :
    ((newExecError (some (exitStatusError 7))).Err = none ↔
        (newExecError (some (exitStatusError 7))).ExitCode = 0) ∧
    ((newExecError none).Err = none ↔ (newExecError none).ExitCode = 0) :=
  ⟨newExecError_invariant (some (exitStatusError 7)) (by
      intro status h
      cases h
      decide),
   newExecError_invariant none (by intro status h; cases h)⟩

/-! ## Dispatch after alias expansion -/

theorem expandAlias_expanded (w : World) (args : Args) (log : List Event)
    (v w0 : String) (rest : List String)
    (halias : w.Alias log args.Command = (v, none))
    (hsplit : splitAliasCmd w v = Except.ok (w0 :: rest)) :
    expandAlias w args log
      = (some { args with Command := w0, Params := rest ++ args.Params },
         log ++ [Event.Alias args.Command v none]) := by
  have hne : v ≠ "" := by
    intro h
    subst h
    simp [splitAliasCmd] at hsplit
  simp [expandAlias, halias, hne, hsplit, Args.PrependParams]

theorem Execute_call_eq (w : World) (r : Runner) (osArgs : List String)
    (log : List Event) (args1 : Args) (cmd : Command)
    (hcmd : (w.NewArgs osArgs).Command ≠ "")
    (hupdate : w.PromptForUpdate log = none)
    (hexpand : (expandAlias w (w.NewArgs osArgs) (log ++ [Event.PromptForUpdate none])).1
      = some args1)
    (hlook : r.Lookup args1.Command = some cmd) (hrun : cmd.Runnable = true) :
    r.Execute w osArgs log
      = (Run.returned (r.Call w cmd args1 (logBeforeSpawn w osArgs log args1)).1,
         (r.Call w cmd args1 (logBeforeSpawn w osArgs log args1)).2) := by
  have hlog := expandAlias_log w (w.NewArgs osArgs) (log ++ [Event.PromptForUpdate none])
  rcases hE : expandAlias w (w.NewArgs osArgs) (log ++ [Event.PromptForUpdate none])
    with ⟨oa, log1⟩
  rw [hE] at hexpand hlog
  simp only at hexpand hlog
  subst hexpand
  have hl : log1 ++ [Event.Lookup args1.Command] = logBeforeSpawn w osArgs log args1 := by
    rw [hlog]; simp [logBeforeSpawn]
  unfold Runner.Execute
  simp only [if_neg hcmd, hupdate, utils.Check, hE, hlook, hrun, hl]
  simp

theorem Execute_panic_eq (w : World) (r : Runner) (osArgs : List String)
    (log : List Event)
    (hcmd : (w.NewArgs osArgs).Command ≠ "")
    (hupdate : w.PromptForUpdate log = none)
    (hexpand : (expandAlias w (w.NewArgs osArgs) (log ++ [Event.PromptForUpdate none])).1
      = none) :
    r.Execute w osArgs log
      = (Run.panicked,
         log ++ [Event.PromptForUpdate none,
           Event.Alias (w.NewArgs osArgs).Command
             (w.Alias (log ++ [Event.PromptForUpdate none]) (w.NewArgs osArgs).Command).1
             (w.Alias (log ++ [Event.PromptForUpdate none]) (w.NewArgs osArgs).Command).2]) := by
  have hlog := expandAlias_log w (w.NewArgs osArgs) (log ++ [Event.PromptForUpdate none])
  rcases hE : expandAlias w (w.NewArgs osArgs) (log ++ [Event.PromptForUpdate none])
    with ⟨oa, log1⟩
  rw [hE] at hexpand hlog
  simp only at hexpand hlog
  subst hexpand
  unfold Runner.Execute
  simp only [if_neg hcmd, hupdate, utils.Check, hE, hlog]
  simp

theorem Execute_exited_eq (w : World) (r : Runner) (osArgs : List String)
    (log : List Event) (e : GoError)
    (hcmd : (w.NewArgs osArgs).Command ≠ "")
    (hupdate : w.PromptForUpdate log = some e) :
    r.Execute w osArgs log = (Run.exited e, log ++ [Event.PromptForUpdate (some e)]) := by
  unfold Runner.Execute
  simp only [if_neg hcmd, hupdate, utils.Check]

/-- C18: index safety of alias expansion fails on the code.  On the alias
value made of one blank, `splitAliasCmd` returns no error and an empty word
list, so that `words[0]` in `expandAlias` is out of bounds: alias expansion,
and with it the run of `Runner.Execute`, ends in a run-time panic. -/
theorem expandAlias_blank_alias_panics :
    splitAliasCmd (aliasWorld " ") " " = Except.ok [] ∧
    (expandAlias (aliasWorld " ")
        { Command := "co", Params := ["foo"], Noop := false, queuedProcesses := [] } []).1
      = none ∧
    (Runner.Execute (aliasWorld " ") NewRunner ["co", "foo"] []).1 = Run.panicked := by
  decide

theorem Execute_alias_queries (w : World) (r : Runner) (osArgs : List String)
    (log : List Event) :
    ∃ evs : List Event,
      (r.Execute w osArgs log).2 = log ++ evs ∧
      ((w.NewArgs osArgs).Command = "" → evs.filter isAliasQuery = []) ∧
      ((w.NewArgs osArgs).Command ≠ "" → w.PromptForUpdate log ≠ none →
        evs.filter isAliasQuery = []) ∧
      ((w.NewArgs osArgs).Command ≠ "" → w.PromptForUpdate log = none →
        evs.filter isAliasQuery
          = [Event.Alias (w.NewArgs osArgs).Command
              (w.Alias (log ++ [Event.PromptForUpdate none]) (w.NewArgs osArgs).Command).1
              (w.Alias (log ++ [Event.PromptForUpdate none]) (w.NewArgs osArgs).Command).2]) := by
  by_cases hcmd : (w.NewArgs osArgs).Command = ""
  · refine ⟨[Event.printUsage], ?_, fun _ => rfl, fun h => absurd hcmd h, fun h => absurd hcmd h⟩
    unfold Runner.Execute
    simp only [hcmd, if_true]
  · cases hupd : w.PromptForUpdate log with
    | some e =>
      refine ⟨[Event.PromptForUpdate (some e)], ?_, fun h => absurd h hcmd, fun _ _ => rfl,
        fun _ h => by cases h⟩
      rw [Execute_exited_eq w r osArgs log e hcmd hupd]
    | none =>
      cases hE : (expandAlias w (w.NewArgs osArgs) (log ++ [Event.PromptForUpdate none])).1 with
      | none =>
        refine ⟨[Event.PromptForUpdate none,
            Event.Alias (w.NewArgs osArgs).Command
            (w.Alias (log ++ [Event.PromptForUpdate none]) (w.NewArgs osArgs).Command).1
            (w.Alias (log ++ [Event.PromptForUpdate none]) (w.NewArgs osArgs).Command).2],
          ?_, fun h => absurd h hcmd, fun _ h => absurd rfl h, fun _ _ => rfl⟩
        rw [Execute_panic_eq w r osArgs log hcmd hupd hE]
      | some args1 =>
        have hpass : ∀ hentry, r.Execute w osArgs log = _ :=
          Execute_passthrough_eq w r osArgs log args1 hcmd hupd hE
        cases hL : r.Lookup args1.Command with
        | none =>
          refine ⟨[Event.PromptForUpdate none,
            Event.Alias (w.NewArgs osArgs).Command
            (w.Alias (log ++ [Event.PromptForUpdate none]) (w.NewArgs osArgs).Command).1
            (w.Alias (log ++ [Event.PromptForUpdate none]) (w.NewArgs osArgs).Command).2,
            Event.Lookup args1.Command,
            Event.Spawn args1.Command args1.Params
              (w.Spawn (logBeforeSpawn w osArgs log args1) args1.Command args1.Params)],
            ?_, fun h => absurd h hcmd, fun _ h => absurd rfl h, fun _ _ => rfl⟩
          rw [hpass (Or.inl hL)]
          simp [logBeforeSpawn]
        | some cmd0 =>
          cases hR : cmd0.Runnable with
          | false =>
            refine ⟨[Event.PromptForUpdate none,
            Event.Alias (w.NewArgs osArgs).Command
            (w.Alias (log ++ [Event.PromptForUpdate none]) (w.NewArgs osArgs).Command).1
            (w.Alias (log ++ [Event.PromptForUpdate none]) (w.NewArgs osArgs).Command).2,
            Event.Lookup args1.Command,
            Event.Spawn args1.Command args1.Params
              (w.Spawn (logBeforeSpawn w osArgs log args1) args1.Command args1.Params)],
              ?_, fun h => absurd h hcmd, fun _ h => absurd rfl h, fun _ _ => rfl⟩
            rw [hpass (Or.inr ⟨cmd0, hL, hR⟩)]
            simp [logBeforeSpawn]
          | true =>
            obtain ⟨tail, htail, hq⟩ :=
              Call_log w r cmd0 args1 (logBeforeSpawn w osArgs log args1)
            have hfil : tail.filter isAliasQuery = [] := by
              rw [List.filter_eq_nil_iff]
              intro ev hev
              have := hq ev hev
              cases ev <;> simp_all [isQueueEvent, isAliasQuery]
            refine ⟨[Event.PromptForUpdate none,
                Event.Alias (w.NewArgs osArgs).Command
                  (w.Alias (log ++ [Event.PromptForUpdate none]) (w.NewArgs osArgs).Command).1
                  (w.Alias (log ++ [Event.PromptForUpdate none]) (w.NewArgs osArgs).Command).2,
                Event.Lookup args1.Command,
                Event.Call cmd0.Name args1
                  (cmd0.Call (logBeforeSpawn w osArgs log args1) args1).2] ++ tail,
              ?_, fun h => absurd h hcmd, fun _ h => absurd rfl h, ?_⟩
            · rw [Execute_call_eq w r osArgs log args1 cmd0 hcmd hupd hE hL hR, htail]
              simp [logBeforeSpawn]
            · intro _ _
              simp [List.filter_cons, isAliasQuery, hfil]

/-- C15, as stated, fails: in a run of `Runner.Execute` on an empty command
the alias source is not queried at all, so the number of queries is not 1. -/
theorem Execute_alias_query_counterexample :
    (chainWorld.NewArgs []).Command = "" ∧
    (Runner.Execute chainWorld NewRunner [] []).2 = [Event.printUsage] ∧
    (Runner.Execute chainWorld NewRunner [] []).2.countP isAliasQuery ≠ 1 := by
  decide

/-- C15, amended: in one run of `Runner.Execute` the alias source is queried
at most once: not at all when the command is empty, and exactly once, with the
command name as parsed, when the command is non-empty and the pre-dispatch
check passes.  And if the alias of the command `a` splits into words whose
first word is `b`, then, whether or not `b` is itself an alias, the registry
lookup and the dispatch (handler call or spawn) are on `b`, with the remaining
words of the alias of `a` prepended to the parameters, and no further alias
query is made: the alias of `b` is not applied. -/
theorem Execute_alias_depth_one (w : World) (r : Runner) (osArgs : List String)
    (log : List Event) :
    (∃ evs : List Event,
      (r.Execute w osArgs log).2 = log ++ evs ∧
      evs.countP isAliasQuery ≤ 1 ∧
      ((w.NewArgs osArgs).Command = "" → evs.countP isAliasQuery = 0) ∧
      ((w.NewArgs osArgs).Command ≠ "" → w.PromptForUpdate log = none →
        evs.filter isAliasQuery
          = [Event.Alias (w.NewArgs osArgs).Command
              (w.Alias (log ++ [Event.PromptForUpdate none]) (w.NewArgs osArgs).Command).1
              (w.Alias (log ++ [Event.PromptForUpdate none])
                (w.NewArgs osArgs).Command).2])) ∧
    (∀ (v b : String) (rest : List String),
      (w.NewArgs osArgs).Command ≠ "" → w.PromptForUpdate log = none →
      w.Alias (log ++ [Event.PromptForUpdate none]) (w.NewArgs osArgs).Command = (v, none) →
      splitAliasCmd w v = Except.ok (b :: rest) →
      ∃ tail : List Event,
        (r.Execute w osArgs log).2
          = log ++ [Event.PromptForUpdate none,
              Event.Alias (w.NewArgs osArgs).Command v none, Event.Lookup b] ++ tail ∧
        tail.filter isAliasQuery = [] ∧
        ((∃ err, tail = [Event.Spawn b (rest ++ (w.NewArgs osArgs).Params) err]) ∨
         (∃ cmd0 err tail1, r.Lookup b = some cmd0 ∧
            tail = Event.Call cmd0.Name
              { w.NewArgs osArgs with Command := b,
                                      Params := rest ++ (w.NewArgs osArgs).Params } err
              :: tail1))) := by
  constructor
  · obtain ⟨evs, hevs, hempty, hexit, hone⟩ := Execute_alias_queries w r osArgs log
    refine ⟨evs, hevs, ?_, ?_, hone⟩
    · rw [List.countP_eq_length_filter]
      by_cases hcmd : (w.NewArgs osArgs).Command = ""
      · simp [hempty hcmd]
      · cases hupd : w.PromptForUpdate log with
        | none => simp [hone hcmd hupd]
        | some e => simp [hexit hcmd (by simp [hupd])]
    · intro hcmd
      rw [List.countP_eq_length_filter, hempty hcmd]
      rfl
  · intro v b rest hcmd hupd halias hsplit
    obtain ⟨args1, hargs1⟩ : ∃ a : Args, a = { w.NewArgs osArgs with
        Command := b, Params := rest ++ (w.NewArgs osArgs).Params } := ⟨_, rfl⟩
    have hc1 : args1.Command = b := by rw [hargs1]
    have hp1 : args1.Params = rest ++ (w.NewArgs osArgs).Params := by rw [hargs1]
    have hE1 : (expandAlias w (w.NewArgs osArgs) (log ++ [Event.PromptForUpdate none])).1
        = some args1 := by
      rw [expandAlias_expanded w (w.NewArgs osArgs) (log ++ [Event.PromptForUpdate none])
        v b rest halias hsplit, hargs1]
    have hL1 : logBeforeSpawn w osArgs log args1
        = log ++ [Event.PromptForUpdate none,
            Event.Alias (w.NewArgs osArgs).Command v none, Event.Lookup b] := by
      simp [logBeforeSpawn, halias, hc1]
    have hpass := Execute_passthrough_eq w r osArgs log args1 hcmd hupd hE1
    rw [← hargs1, ← hp1]
    cases hL : r.Lookup b with
    | none =>
      refine ⟨[Event.Spawn b args1.Params
          (w.Spawn (logBeforeSpawn w osArgs log args1) b args1.Params)], ?_, rfl,
        Or.inl ⟨_, rfl⟩⟩
      rw [hpass (Or.inl (by rw [hc1]; exact hL)), hL1, hc1]
    | some cmd0 =>
      cases hR : cmd0.Runnable with
      | false =>
        refine ⟨[Event.Spawn b args1.Params
            (w.Spawn (logBeforeSpawn w osArgs log args1) b args1.Params)], ?_, rfl,
          Or.inl ⟨_, rfl⟩⟩
        rw [hpass (Or.inr ⟨cmd0, by rw [hc1]; exact hL, hR⟩), hL1, hc1]
      | true =>
        obtain ⟨tail, htail, hq⟩ := Call_log w r cmd0 args1 (logBeforeSpawn w osArgs log args1)
        have hfil : tail.filter isAliasQuery = [] := by
          rw [List.filter_eq_nil_iff]
          intro ev hev
          have := hq ev hev
          cases ev <;> simp_all [isQueueEvent, isAliasQuery]
        refine ⟨Event.Call cmd0.Name args1
            (cmd0.Call (logBeforeSpawn w osArgs log args1) args1).2 :: tail, ?_, ?_,
          Or.inr ⟨cmd0, _, tail, rfl, rfl⟩⟩
        · rw [Execute_call_eq w r osArgs log args1 cmd0 hcmd hupd hE1
            (by rw [hc1]; exact hL) hR, htail, hL1]
        · simp [List.filter_cons, isAliasQuery, hfil]

theorem Execute_alias_depth_one_witness :
    (chainWorld.Alias [] "co").1 = "checkout --quiet" ∧
    (∃ tail : List Event,
      (Runner.Execute chainWorld NewRunner ["ci", "x"] []).2
        = [] ++ [Event.PromptForUpdate none, Event.Alias "ci" "co -b" none, Event.Lookup "co"]
            ++ tail ∧
      tail.filter isAliasQuery = [] ∧
      ((∃ err, tail = [Event.Spawn "co" (["-b"] ++ ["x"]) err]) ∨
       (∃ cmd0 err tail1, NewRunner.Lookup "co" = some cmd0 ∧
          tail = Event.Call cmd0.Name
            { Command := "co", Params := ["-b"] ++ ["x"], Noop := false, queuedProcesses := [] }
            err :: tail1))) ∧
    (Runner.Execute chainWorld NewRunner ["ci", "x"] []).2
      = [Event.PromptForUpdate none, Event.Alias "ci" "co -b" none, Event.Lookup "co",
         Event.Spawn "co" ["-b", "x"] none] :=
  ⟨rfl,
   (Execute_alias_depth_one chainWorld NewRunner ["ci", "x"] []).2 "co -b" "co" ["-b"]
     (by decide) rfl rfl (by decide),
   by decide⟩

theorem Execute_congr_lookup (w : World) (r r2 : Runner) (osArgs : List String)
    (log : List Event) (args1 : Args)
    (hcmd : (w.NewArgs osArgs).Command ≠ "")
    (hupdate : w.PromptForUpdate log = none)
    (hexpand : (expandAlias w (w.NewArgs osArgs) (log ++ [Event.PromptForUpdate none])).1
      = some args1)
    (hsame : r2.Lookup args1.Command = r.Lookup args1.Command) :
    r2.Execute w osArgs log = r.Execute w osArgs log := by
  cases hL : r.Lookup args1.Command with
  | none =>
    rw [Execute_passthrough_eq w r osArgs log args1 hcmd hupdate hexpand (Or.inl hL),
      Execute_passthrough_eq w r2 osArgs log args1 hcmd hupdate hexpand
        (Or.inl (hsame.trans hL))]
  | some cmd0 =>
    cases hR : cmd0.Runnable with
    | false =>
      rw [Execute_passthrough_eq w r osArgs log args1 hcmd hupdate hexpand
          (Or.inr ⟨cmd0, hL, hR⟩),
        Execute_passthrough_eq w r2 osArgs log args1 hcmd hupdate hexpand
          (Or.inr ⟨cmd0, hsame.trans hL, hR⟩)]
    | true =>
      rw [Execute_call_eq w r osArgs log args1 cmd0 hcmd hupdate hexpand hL hR,
        Execute_call_eq w r2 osArgs log args1 cmd0 hcmd hupdate hexpand (hsame.trans hL) hR]
      rfl

/-- C19: aliases take precedence over builtins.  Let the command `c` of a
run that reaches dispatch (non-empty command, update check passed) have a
runnable registry entry and also an alias that splits without error into words
whose first word `w0` differs from `c`.  Then `Runner.Execute` dispatches on
`w0` with the expanded arguments: it calls the handler of the entry of `w0`
when that entry is runnable, and otherwise spawns the wrapped tool with `w0`;
and the entry of `c` plays no part, the run being the same with the entry of
`c` removed from the registry (so the conclusion does not depend on that entry
being there or runnable). -/
theorem Execute_alias_precedes_builtin (w : World) (r : Runner) (osArgs : List String)
    (log : List Event) (entry : Command) (v w0 : String) (rest : List String) (args1 : Args)
    (hcmd : (w.NewArgs osArgs).Command ≠ "")
    (hupdate : w.PromptForUpdate log = none)
    (_hentry : r.Lookup (w.NewArgs osArgs).Command = some entry)
    (_hrun : entry.Runnable = true)
    (halias : w.Alias (log ++ [Event.PromptForUpdate none]) (w.NewArgs osArgs).Command
      = (v, none))
    (hsplit : splitAliasCmd w v = Except.ok (w0 :: rest))
    (hdiff : w0 ≠ (w.NewArgs osArgs).Command)
    (hargs1 : args1 = { w.NewArgs osArgs with
      Command := w0, Params := rest ++ (w.NewArgs osArgs).Params }) :
    (∀ cmd0 : Command, r.Lookup w0 = some cmd0 → cmd0.Runnable = true →
      r.Execute w osArgs log
        = (Run.returned (r.Call w cmd0 args1
              (log ++ [Event.PromptForUpdate none,
                Event.Alias (w.NewArgs osArgs).Command v none, Event.Lookup w0])).1,
           (r.Call w cmd0 args1
              (log ++ [Event.PromptForUpdate none,
                Event.Alias (w.NewArgs osArgs).Command v none, Event.Lookup w0])).2)) ∧
    ((r.Lookup w0 = none ∨ ∃ cmd0, r.Lookup w0 = some cmd0 ∧ cmd0.Runnable = false) →
      ∃ err : Option GoError,
        r.Execute w osArgs log
          = (Run.returned (newExecError err),
             log ++ [Event.PromptForUpdate none,
               Event.Alias (w.NewArgs osArgs).Command v none, Event.Lookup w0,
               Event.Spawn w0 (rest ++ (w.NewArgs osArgs).Params) err])) ∧
    Runner.Execute w
        { commands := r.commands.filter (fun e => e.1 != (w.NewArgs osArgs).Command) }
        osArgs log
      = r.Execute w osArgs log := by
  have hc1 : args1.Command = w0 := by rw [hargs1]
  have hp1 : args1.Params = rest ++ (w.NewArgs osArgs).Params := by rw [hargs1]
  have hE1 : (expandAlias w (w.NewArgs osArgs) (log ++ [Event.PromptForUpdate none])).1
      = some args1 := by
    rw [expandAlias_expanded w (w.NewArgs osArgs) (log ++ [Event.PromptForUpdate none])
      v w0 rest halias hsplit, hargs1]
  have hL1 : logBeforeSpawn w osArgs log args1
      = log ++ [Event.PromptForUpdate none,
          Event.Alias (w.NewArgs osArgs).Command v none, Event.Lookup w0] := by
    simp [logBeforeSpawn, halias, hc1]
  refine ⟨?_, ?_, ?_⟩
  · intro cmd0 hL hR
    rw [Execute_call_eq w r osArgs log args1 cmd0 hcmd hupdate hE1 (by rw [hc1]; exact hL) hR,
      hL1]
  · intro hno
    refine ⟨w.Spawn (logBeforeSpawn w osArgs log args1) w0 args1.Params, ?_⟩
    rw [Execute_passthrough_eq w r osArgs log args1 hcmd hupdate hE1 (by rw [hc1]; exact hno),
      hL1, hc1, hp1]
    simp
  · apply Execute_congr_lookup w r _ osArgs log args1 hcmd hupdate hE1
    rw [hc1]
    exact lookup_filter_ne _ w0 hdiff r.commands

theorem Execute_alias_precedes_builtin_witness :
    Runner.Execute (aliasWorld "checkout --quiet") (NewRunner.Use demoHandler) ["demo", "x"] []
      = (Run.returned { Err := none, ExitCode := 0 },
         [Event.PromptForUpdate none, Event.Alias "demo" "checkout --quiet" none,
          Event.Lookup "checkout", Event.Spawn "checkout" ["--quiet", "x"] none]) := by
  obtain ⟨err, herr⟩ := (Execute_alias_precedes_builtin (aliasWorld "checkout --quiet")
    (NewRunner.Use demoHandler) ["demo", "x"] [] demoHandler "checkout --quiet" "checkout"
    ["--quiet"]
    { Command := "checkout", Params := ["--quiet", "x"], Noop := false, queuedProcesses := [] }
    (by decide) rfl rfl rfl rfl (by decide) (by decide) rfl).2.1 (Or.inl rfl)
  have h0 : (Runner.Execute (aliasWorld "checkout --quiet") (NewRunner.Use demoHandler)
      ["demo", "x"] []).1 = Run.returned { Err := none, ExitCode := 0 } := by decide
  rw [herr] at h0 ⊢
  simp only [Run.returned.injEq] at h0
  cases err with
  | none => rfl
  | some e =>
    have : (newExecError (some e)).Err = none := by rw [h0]
    cases this

end Hub
